import Mathlib

set_option maxRecDepth 100000

/-!
Verification development for the AI-Dental-Treatment-Plan repository.

The embedding covers:
- the JSON value model used by the API route (`Json`, with explicit mutual
  lists so every function computes by kernel reduction),
- the model-output normalizer `formatValue` and field coercion
  `coerceToStrings` from `src/app/api/generate-plan/route.ts`,
- the schema validator (zod `treatmentPlanSchema`),
- the POST orchestration (strict attempt, lenient retry, free-text JSON
  extraction, deterministic fallback),
- the PDF renderer pagination logic from `src/utils/pdfExport.ts`.

JavaScript runtime primitives that the source relies on (`JSON.parse`,
`String(value)`, `String.prototype.includes/split/replace`, the regexes
used for brace and code-fence extraction) are embedded as executable Lean
functions whose doc comments state the modelled semantics.
-/

/-- Character for a left curly brace (written numerically to keep string
literals free of brace characters). -/
def lbrace : Char := Char.ofNat 123

/-- Character for a right curly brace. -/
def rbrace : Char := Char.ofNat 125

/-- Exact leading-match test: does the second list start with the first? -/
def leadEq : List Char → List Char → Bool
  | [], _ => true
  | _ :: _, [] => false
  | a :: as, b :: bs => a == b && leadEq as bs

/-- Substring occurrence test on character lists. -/
def subOccurs : List Char → List Char → Bool
  | pat, [] => leadEq pat []
  | pat, c :: cs => leadEq pat (c :: cs) || subOccurs pat cs

/-- Models JavaScript `haystack.includes(needle)`. -/
def strIncludes (hay pat : String) : Bool := subOccurs pat.data hay.data

/-- Splits a character list at every occurrence of the given character,
modelling JavaScript `s.split(sep)` for a one-character separator. -/
def splitOnChar (sep : Char) : List Char → List (List Char)
  | [] => [[]]
  | c :: cs =>
    match splitOnChar sep cs with
    | [] => [[c]]
    | h :: t => if c == sep then [] :: h :: t else (c :: h) :: t

/-- Models JavaScript `s.split(sep)` for a one-character separator string. -/
def strSplit (s : String) (sep : Char) : List String :=
  (splitOnChar sep s.data).map String.mk

/-- Models JavaScript `Array.prototype.join(sep)`. -/
def joinWith (sep : String) : List String → String
  | [] => ""
  | [s] => s
  | s :: rest => s ++ sep ++ joinWith sep rest

/-- Replacement engine for a global, non-overlapping, left-to-right string
replace (the semantics of JavaScript `s.replace(/pat/g, rep)` for a literal
pattern); the fuel argument is an implementation device, always called with
enough fuel to traverse the input. -/
def replChars : Nat → List Char → List Char → List Char → List Char
  | 0, _, _, _ => []
  | _ + 1, [], _, _ => []
  | f + 1, c :: cs, pat, rep =>
    if leadEq pat (c :: cs) then rep ++ replChars f ((c :: cs).drop pat.length) pat rep
    else c :: replChars f cs pat rep

/-- Models JavaScript global string replacement with a literal pattern. -/
def replaceAllStr (s pat rep : String) : String :=
  String.mk (replChars (s.data.length + 1) s.data pat.data rep.data)

mutual
/-- JSON values as parsed by `JSON.parse`, with mutual list types so that
all recursive functions are structural and compute in the kernel.  Numbers
are restricted to integers (the source's treatment plans only ever carry
strings, arrays and objects). -/
inductive Json where
  | jstr (s : String)
  | jnum (n : Int)
  | jbool (b : Bool)
  | jnull
  | jarr (items : JsonList)
  | jobj (entries : JsonObj)

inductive JsonList where
  | nil
  | cons (hd : Json) (tl : JsonList)

inductive JsonObj where
  | nil
  | cons (key : String) (val : Json) (tl : JsonObj)
end

/-- Builds a `JsonList` from a Lean list. -/
def JsonList.ofList : List Json → JsonList
  | [] => .nil
  | v :: vs => .cons v (JsonList.ofList vs)

/-- Builds a `JsonObj` from a Lean association list. -/
def JsonObj.ofList : List (String × Json) → JsonObj
  | [] => .nil
  | (k, v) :: kvs => .cons k v (JsonObj.ofList kvs)

/-- First-match key lookup in a JSON object (objects produced by
`JSON.parse` have unique keys, so first match equals JavaScript property
access). -/
def JsonObj.lookup : JsonObj → String → Option Json
  | .nil, _ => none
  | .cons k v tl, key => if k == key then some v else tl.lookup key

/-- JavaScript truthiness of a JSON value (`null`, `false`, `0` and `""`
are falsy; arrays and objects are always truthy). -/
def truthy : Json → Bool
  | .jnull => false
  | .jbool b => b
  | .jnum n => n != 0
  | .jstr s => s != ""
  | .jarr _ => true
  | .jobj _ => true

/-- Models JavaScript `String(value)` on a JSON scalar: numbers and
booleans print their usual decimal/boolean text, `null` prints "null". -/
def scalarToString : Json → String
  | .jnum n => toString n
  | .jbool b => toString b
  | _ => "null"

mutual
/-- The normalizer `formatValue` from `coerceToStrings` in
`src/app/api/generate-plan/route.ts` (lines 199–216): strings are returned
as-is; arrays become a newline-joined 1-based numbered list; non-null
objects become entries rendered as bullet lines (multi-line values get a
"key:" heading with every line bullet-prefixed) joined by blank lines;
remaining scalars go through `String(value)`. -/
def formatValue : Json → String
  | .jstr s => s
  | .jarr items => joinWith "\n" (fmtItems 1 items)
  | .jobj entries => joinWith "\n\n" (fmtEntries entries)
  | .jnum n => toString n
  | .jbool b => toString b
  | .jnull => "null"

/-- Renders array items as `"{index}. {formatValue item}"`, threading the
1-based index, as `value.map((item, index) => ...)` does in the source. -/
def fmtItems : Nat → JsonList → List String
  | _, .nil => []
  | i, .cons v rest => (toString i ++ ". " ++ formatValue v) :: fmtItems (i + 1) rest

/-- Renders object entries in insertion order as the source's
`Object.entries(value).map(([key, val]) => ...)` does. -/
def fmtEntries : JsonObj → List String
  | .nil => []
  | .cons k v rest =>
    (let fv := formatValue v
     if strIncludes fv "\n" then
       k ++ ":\n" ++ joinWith "\n" ((strSplit fv '\n').map (fun line => "• " ++ line))
     else "• " ++ k ++ ": " ++ fv) :: fmtEntries rest
end

mutual
/-- Normalizer written from the specification text (spec §4.3): identity on
strings; arrays render as a newline-joined numbered list with 1-based
indices in array order; non-null non-array objects render each key in
insertion order, as a bullet entry for single-line values or a key heading
with bullet-prefixed lines for multi-line values, joined by blank lines;
null, numbers and booleans stringify directly. -/
def specNormalize : Json → String
  | .jstr s => s
  | .jarr items => joinWith "\n" (specItems 1 items)
  | .jobj entries => joinWith "\n\n" (specEntries entries)
  | v => scalarToString v

/-- Specification rendering of array elements: `"{i}. {normalize item}"`
for the running 1-based index `i`. -/
def specItems : Nat → JsonList → List String
  | _, .nil => []
  | i, .cons v rest => (toString i ++ ". " ++ specNormalize v) :: specItems (i + 1) rest

/-- Specification rendering of object entries in insertion order. -/
def specEntries : JsonObj → List String
  | .nil => []
  | .cons k v rest =>
    (let fv := specNormalize v
     if strIncludes fv "\n" then
       k ++ ":\n" ++ joinWith "\n" ((strSplit fv '\n').map (fun line => "• " ++ line))
     else "• " ++ k ++ ": " ++ fv) :: specEntries rest
end

mutual
theorem formatValue_eq_spec : ∀ v : Json, formatValue v = specNormalize v
  | .jstr _ => rfl
  | .jnum _ => rfl
  | .jbool _ => rfl
  | .jnull => rfl
  | .jarr items => by
    simp only [formatValue, specNormalize, fmtItems_eq_spec 1 items]
  | .jobj entries => by
    simp only [formatValue, specNormalize, fmtEntries_eq_spec entries]

theorem fmtItems_eq_spec : ∀ (i : Nat) (l : JsonList), fmtItems i l = specItems i l
  | _, .nil => rfl
  | i, .cons v rest => by
    simp only [fmtItems, specItems, formatValue_eq_spec v, fmtItems_eq_spec (i + 1) rest]

theorem fmtEntries_eq_spec : ∀ o : JsonObj, fmtEntries o = specEntries o
  | .nil => rfl
  | .cons k v rest => by
    simp only [fmtEntries, specEntries, formatValue_eq_spec v, fmtEntries_eq_spec rest]
end

/-- C3: the normalizer `formatValue` implements exactly the specification's
recursive definition: numbered newline-joined lists for arrays (1-based, in
array order), bullet/heading rendering for object entries in insertion
order joined by blank lines, and direct stringification of null, numbers
and booleans. -/
theorem formatValue_eq_specNormalize (v : Json) : formatValue v = specNormalize v :=
  formatValue_eq_spec v

/-- Whitespace recognized by the JSON grammar (also used to model
JavaScript `trim`). -/
def isWsChar (c : Char) : Bool := c == ' ' || c == '\t' || c == '\n' || c == '\r'

/-- Skips leading whitespace. -/
def skipWs (cs : List Char) : List Char := cs.dropWhile isWsChar

/-- Models JavaScript `s.trim()` (restricted to the ASCII whitespace the
source ever produces). -/
def trimStr (s : String) : String :=
  String.mk (((s.data.dropWhile isWsChar).reverse.dropWhile isWsChar).reverse)

/-- Parses the body of a JSON string after its opening quote, returning
the decoded characters and the remainder after the closing quote.  The
escapes `\" \\ \/ \n \t \r \b \f` are supported; `\uXXXX` is not (never
produced by the treatment-plan flow). -/
def parseStrChars : List Char → Option (List Char × List Char)
  | [] => none
  | c :: cs =>
    if c == '"' then some ([], cs)
    else if c == '\\' then
      match cs with
      | [] => none
      | e :: cs2 =>
        let esc : Option Char :=
          if e == '"' then some '"'
          else if e == '\\' then some '\\'
          else if e == '/' then some '/'
          else if e == 'n' then some '\n'
          else if e == 't' then some '\t'
          else if e == 'r' then some '\r'
          else if e == 'b' then some (Char.ofNat 8)
          else if e == 'f' then some (Char.ofNat 12)
          else none
        match esc with
        | none => none
        | some ch =>
          match parseStrChars cs2 with
          | none => none
          | some (body, rest) => some (ch :: body, rest)
    else
      match parseStrChars cs with
      | none => none
      | some (body, rest) => some (c :: body, rest)

/-- Decimal value of a digit list. -/
def digitsVal (ds : List Char) : Nat := ds.foldl (fun acc c => acc * 10 + (c.toNat - 48)) 0

/-- Parses an integer JSON numeral (optional minus sign, digits); inputs
with a fractional or exponent part are outside the modelled fragment and
fail. -/
def parseNumberFrom (cs : List Char) : Option (Json × List Char) :=
  let (neg, body) :=
    match cs with
    | c :: rest => if c == '-' then (true, rest) else (false, cs)
    | [] => (false, cs)
  let ds := body.takeWhile Char.isDigit
  let rest := body.dropWhile Char.isDigit
  if ds.isEmpty then none
  else
    match rest with
    | c :: _ =>
      if c == '.' || c == 'e' || c == 'E' then none
      else some (.jnum (if neg then -(digitsVal ds : Int) else (digitsVal ds : Int)), rest)
    | [] => some (.jnum (if neg then -(digitsVal ds : Int) else (digitsVal ds : Int)), rest)

/-- JavaScript object construction with textual-order insertion where a
repeated key keeps its first position but takes the later value, as
`JSON.parse` does. -/
def JsonObj.insertJS : JsonObj → String → Json → JsonObj
  | .nil, k, v => .cons k v .nil
  | .cons k0 v0 tl, k, v =>
    if k0 == k then .cons k0 v tl else .cons k0 v0 (tl.insertJS k v)

/-- Folds parsed members into a JavaScript object. -/
def buildObj (l : List (String × Json)) : JsonObj :=
  l.foldl (fun o kv => o.insertJS kv.1 kv.2) .nil

mutual
/-- Recursive-descent JSON value parser modelling `JSON.parse`.  The fuel
argument is an implementation device; `jsonParse` always supplies enough
fuel for the input, since every recursive call follows the consumption of
at least one character. -/
def parseValue : Nat → List Char → Option (Json × List Char)
  | 0, _ => none
  | f + 1, cs =>
    match skipWs cs with
    | [] => none
    | c :: rest =>
      if c == '"' then
        match parseStrChars rest with
        | some (body, rest2) => some (.jstr (String.mk body), rest2)
        | none => none
      else if c == 't' then
        if leadEq "rue".data rest then some (.jbool true, rest.drop 3) else none
      else if c == 'f' then
        if leadEq "alse".data rest then some (.jbool false, rest.drop 4) else none
      else if c == 'n' then
        if leadEq "ull".data rest then some (.jnull, rest.drop 3) else none
      else if c == '-' || c.isDigit then
        parseNumberFrom (c :: rest)
      else if c == '[' then
        match parseArrayHead f rest with
        | some (items, rest2) => some (.jarr (JsonList.ofList items), rest2)
        | none => none
      else if c == lbrace then
        match parseObjHead f rest with
        | some (kvs, rest2) => some (.jobj (buildObj kvs), rest2)
        | none => none
      else none

/-- Parses array elements after the opening bracket. -/
def parseArrayHead : Nat → List Char → Option (List Json × List Char)
  | 0, _ => none
  | f + 1, cs =>
    match skipWs cs with
    | c :: rest =>
      if c == ']' then some ([], rest)
      else
        match parseValue f cs with
        | none => none
        | some (v, rest2) =>
          match parseArrayTail f rest2 with
          | none => none
          | some (items, rest3) => some (v :: items, rest3)
    | [] => none

/-- Parses `, value` continuations until the closing bracket. -/
def parseArrayTail : Nat → List Char → Option (List Json × List Char)
  | 0, _ => none
  | f + 1, cs =>
    match skipWs cs with
    | c :: rest =>
      if c == ']' then some ([], rest)
      else if c == ',' then
        match parseValue f rest with
        | none => none
        | some (v, rest2) =>
          match parseArrayTail f rest2 with
          | none => none
          | some (items, rest3) => some (v :: items, rest3)
      else none
    | [] => none

/-- Parses object members after the opening brace. -/
def parseObjHead : Nat → List Char → Option (List (String × Json) × List Char)
  | 0, _ => none
  | f + 1, cs =>
    match skipWs cs with
    | c :: rest =>
      if c == rbrace then some ([], rest)
      else if c == '"' then
        match parseStrChars rest with
        | none => none
        | some (kbody, rest2) =>
          match skipWs rest2 with
          | c2 :: rest3 =>
            if c2 == ':' then
              match parseValue f rest3 with
              | none => none
              | some (v, rest4) =>
                match parseObjTail f rest4 with
                | none => none
                | some (kvs, rest5) => some ((String.mk kbody, v) :: kvs, rest5)
            else none
          | [] => none
      else none
    | [] => none

/-- Parses `, "key": value` continuations until the closing brace. -/
def parseObjTail : Nat → List Char → Option (List (String × Json) × List Char)
  | 0, _ => none
  | f + 1, cs =>
    match skipWs cs with
    | c :: rest =>
      if c == rbrace then some ([], rest)
      else if c == ',' then
        match skipWs rest with
        | c2 :: rest2 =>
          if c2 == '"' then
            match parseStrChars rest2 with
            | none => none
            | some (kbody, rest3) =>
              match skipWs rest3 with
              | c3 :: rest4 =>
                if c3 == ':' then
                  match parseValue f rest4 with
                  | none => none
                  | some (v, rest5) =>
                    match parseObjTail f rest5 with
                    | none => none
                    | some (kvs, rest6) => some ((String.mk kbody, v) :: kvs, rest6)
                else none
              | [] => none
          else none
        | [] => none
      else none
    | [] => none
end

/-- Models `JSON.parse(s)`, returning `none` where `JSON.parse` throws.
The modelled fragment excludes non-integer numerals and `\uXXXX` escapes,
which the treatment-plan flow never exercises. -/
def jsonParse (s : String) : Option Json :=
  match parseValue (s.data.length + 1) s.data with
  | some (v, rest) => if (skipWs rest).isEmpty then some v else none
  | none => none

/-- Case-insensitive leading-match test (the pattern is given lowercase). -/
def leadEqCI : List Char → List Char → Bool
  | [], _ => true
  | _ :: _, [] => false
  | a :: as, b :: bs => a == b.toLower && leadEqCI as bs

/-- Finds the earliest case-insensitive occurrence of the pattern,
returning the characters before it and the suffix starting at it. -/
def findSubCI (pat : List Char) : List Char → Option (List Char × List Char)
  | [] => if pat.isEmpty then some ([], []) else none
  | c :: cs =>
    if leadEqCI pat (c :: cs) then some ([], c :: cs)
    else
      match findSubCI pat cs with
      | some (pre, suf) => some (c :: pre, suf)
      | none => none

/-- Lazy fence regex: earliest occurrence of the opening pattern, then the
earliest closing triple backtick, returning the full matched text.  Models
the source's case-insensitive lazy regexes over code fences. -/
def fenceMatch (pat : List Char) (s : List Char) : Option (List Char) :=
  match findSubCI pat s with
  | none => none
  | some (_, suf) =>
    match findSubCI ("```".data) (suf.drop pat.length) with
    | none => none
    | some (mid, suf2) => some (suf.take pat.length ++ mid ++ suf2.take 3)

/-- First fence regex (tagged `json`) or, failing that, the untagged one,
as in `tryParseJsonFromContent` (route.ts line 110). -/
def codeFenceMatch (s : String) : Option String :=
  match fenceMatch ("```json".data) s.data with
  | some m => some (String.mk m)
  | none =>
    match fenceMatch ("```".data) s.data with
    | some m => some (String.mk m)
    | none => none

/-- Global case-insensitive removal of the fence markers, modelling
`match[0].replace(/```json|```/gi, '')` with JavaScript's left-to-right
alternation (the tagged marker is tried first at each position). -/
def stripFence : Nat → List Char → List Char
  | 0, _ => []
  | _ + 1, [] => []
  | f + 1, c :: cs =>
    if leadEqCI ("```json".data) (c :: cs) then stripFence f ((c :: cs).drop 7)
    else if leadEqCI ("```".data) (c :: cs) then stripFence f ((c :: cs).drop 3)
    else c :: stripFence f cs

/-- The helper `tryParseJsonFromContent` from route.ts (lines 105–121):
parse directly; on failure, look for a code fence, strip its markers, trim
and parse that; otherwise fail. -/
def tryParseJsonFromContent (content : String) : Option Json :=
  match jsonParse content with
  | some v => some v
  | none =>
    match codeFenceMatch content with
    | some m => jsonParse (trimStr (String.mk (stripFence (m.data.length + 1) m.data)))
    | none => none

/-- The greedy brace extraction `retryContent.match(/\{[\s\S]*\}/)`
(route.ts line 278): the substring from the first opening brace to the
last closing brace, when such a span exists. -/
def extractBrace (s : String) : Option String :=
  let fromBrace := s.data.dropWhile (fun c => c != lbrace)
  let upToLast := (fromBrace.reverse.dropWhile (fun c => c != rbrace)).reverse
  if upToLast.isEmpty then none else some (String.mk upToLast)

/-- Symptom flags of `PatientData` (src/types, `symptoms`). -/
structure SymptomFlags where
  bleedingGums : Bool
  toothMobility : Bool
  halitosis : Bool
  sensitivity : Bool
  pain : Bool

/-- Periodontal findings of `PatientData` (src/types). -/
structure PeriodontalFindings where
  probingDepths : String
  gingivalRecession : String
  mobilityGrade : String
  radiographicBoneLoss : String

/-- Gender union type of `PatientData`. -/
inductive Gender where
  | male
  | female
  | other

/-- The `PatientData` interface from src/types. -/
structure PatientData where
  patientName : String
  age : Int
  gender : Gender
  medicalHistory : String
  dentalHistory : String
  symptoms : SymptomFlags
  periodontalFindings : PeriodontalFindings

/-- The `TreatmentPlan` interface from src/types: six string fields. -/
structure TreatmentPlan where
  diagnosis : String
  prognosis : String
  phaseI : String
  phaseII : String
  maintenance : String
  additionalRecommendations : String
deriving DecidableEq

/-- Names of the six required plan fields. -/
inductive PlanField where
  | diagnosis
  | prognosis
  | phaseI
  | phaseII
  | maintenance
  | additionalRecommendations
deriving DecidableEq

/-- JSON key of a plan field. -/
def PlanField.key : PlanField → String
  | .diagnosis => "diagnosis"
  | .prognosis => "prognosis"
  | .phaseI => "phaseI"
  | .phaseII => "phaseII"
  | .maintenance => "maintenance"
  | .additionalRecommendations => "additionalRecommendations"

/-- Field projection of a plan by field name. -/
def TreatmentPlan.get (p : TreatmentPlan) : PlanField → String
  | .diagnosis => p.diagnosis
  | .prognosis => p.prognosis
  | .phaseI => p.phaseI
  | .phaseII => p.phaseII
  | .maintenance => p.maintenance
  | .additionalRecommendations => p.additionalRecommendations

/-- Zod's check for one required field: present, a string, and non-empty
(`z.string().min(1)`). -/
def reqStringField (o : JsonObj) (k : String) : Option String :=
  match o.lookup k with
  | some (.jstr s) => if s == "" then none else some s
  | _ => none

/-- The `treatmentPlanSchema.safeParse` check (route.ts lines 6–13): the
candidate must be an object whose six required fields are all non-empty
strings; unknown keys are stripped; `some` carries `validation.data`. -/
def safeParsePlan (j : Json) : Option TreatmentPlan :=
  match j with
  | .jobj o =>
    match reqStringField o "diagnosis", reqStringField o "prognosis",
        reqStringField o "phaseI", reqStringField o "phaseII",
        reqStringField o "maintenance", reqStringField o "additionalRecommendations" with
    | some d, some p, some p1, some p2, some m, some a => some ⟨d, p, p1, p2, m, a⟩
    | _, _, _, _, _, _ => none
  | _ => none

/-- The six-field non-empty-string schema as a predicate on an assembled
plan record (what `safeParse` checks on the output of `coerceToStrings`). -/
def schemaOK (p : TreatmentPlan) : Bool :=
  p.diagnosis != "" && p.prognosis != "" && p.phaseI != "" && p.phaseII != "" &&
    p.maintenance != "" && p.additionalRecommendations != ""

/-- JavaScript property access `obj.k` on a JSON value: a key lookup on
objects, `undefined` (here `none`) on every other value. -/
def getField (j : Json) (k : String) : Option Json :=
  match j with
  | .jobj o => o.lookup k
  | _ => none

/-- Normalization of one accessed field: `formatValue` falls through to
`String(value)`, and `String(undefined)` is the literal text "undefined". -/
def formatValueOpt : Option Json → String
  | some v => formatValue v
  | none => "undefined"

/-- The `coerceToStrings` helper (route.ts lines 196–231): `null` for a
falsy input, otherwise the record of the six normalized field accesses
(the `try` never fires on finite parsed JSON). -/
def coerceToStrings (j : Json) : Option TreatmentPlan :=
  if truthy j then
    some { diagnosis := formatValueOpt (getField j "diagnosis"),
           prognosis := formatValueOpt (getField j "prognosis"),
           phaseI := formatValueOpt (getField j "phaseI"),
           phaseII := formatValueOpt (getField j "phaseII"),
           maintenance := formatValueOpt (getField j "maintenance"),
           additionalRecommendations := formatValueOpt (getField j "additionalRecommendations") }
  else none

/-- Direct validation with coercion on failure (route.ts lines 236–244):
accept a `safeParse` success; otherwise coerce and accept exactly when the
coerced record passes the schema. -/
def validateOrCoerce (j : Json) : Option TreatmentPlan :=
  match safeParsePlan j with
  | some plan => some plan
  | none =>
    match coerceToStrings j with
    | some c => if schemaOK c then some c else none
    | none => none

/-- One validation round of the POST handler on a parsed value
(route.ts lines 233–244 and 289–300): skip when the value is missing or
falsy (the `parsed && ...` guard), else validate with coercion. -/
def attemptValidate (parsed : Option Json) : Option TreatmentPlan :=
  match parsed with
  | none => none
  | some j => if truthy j then validateOrCoerce j else none

/-- The deep-pocket signal of the fallback (route.ts lines 334–336):
the probing-depth text contains a "7" or an "8". -/
def hasDeepPockets (pd : PatientData) : Bool :=
  strIncludes pd.periodontalFindings.probingDepths "7" ||
    strIncludes pd.periodontalFindings.probingDepths "8"

/-- Diagnosis template of the fallback plan, with the framing chosen by
the age threshold. -/
def fallbackDiagnosis (name : String) (aggressive : Bool) : String :=
  "Based on the provided findings, " ++ name ++ " presents with " ++
    (if aggressive then "Aggressive" else "Chronic") ++
    " Periodontitis of moderate severity with generalized distribution."

/-- Surgical-intervention phase-II template of the fallback plan. -/
def surgicalPhaseII : String :=
  "Surgical intervention may be indicated based on re-evaluation:\n1. Open flap debridement for residual deep pockets\n2. Regenerative procedures where indicated (GTR, bone graft)\n3. Consider crown lengthening where restorative needs dictate"

/-- Not-indicated phase-II template of the fallback plan. -/
def notIndicatedPhaseII : String :=
  "Not indicated at this time. Re-evaluate after Phase I therapy completion."

/-- The deterministic fallback plan (route.ts lines 337–346). -/
def fallbackPlan (pd : PatientData) : TreatmentPlan :=
  { diagnosis := fallbackDiagnosis pd.patientName (pd.age < 35),
    prognosis := "Overall prognosis: Fair to Good with patient compliance. Individual tooth prognosis varies based on bone loss severity and mobility. Successful treatment depends on patient adherence to oral hygiene protocols and maintenance appointments.",
    phaseI := "1. Quadrant-based scaling and root planing (SRP)\n2. Customized oral hygiene instruction (modified Bass technique, interdental cleaning)\n3. Antimicrobial rinse: 0.12% chlorhexidine BID for 14 days\n4. Risk factor counseling (smoking, glycemic control as applicable)\n5. Re-evaluation in 6–8 weeks",
    phaseII := if hasDeepPockets pd then surgicalPhaseII else notIndicatedPhaseII,
    maintenance := "1. Periodontal maintenance every 3 months initially\n2. Comprehensive periodontal charting every 6 months\n3. Annual radiographic review to monitor bone levels",
    additionalRecommendations := "1. Daily interdental cleaning (floss or interdental brushes)\n2. Consider electric toothbrush\n3. Manage systemic risk factors (e.g., diabetes, smoking cessation)\n4. Nutritional and stress management counseling as appropriate" }

/-- Outcome of one outbound model call: the returned message content, or a
thrown transport/model error. -/
def CallOutcome := Except Unit String

/-- HTTP response of the POST handler: a success JSON plan, or an error
body with a status code. -/
inductive ApiResponse where
  | ok (plan : TreatmentPlan)
  | err (msg : String) (status : Nat)
deriving DecidableEq

/-- JavaScript falsiness of the parsed retry value, as tested by
`if (!retryParsed && retryContent)`. -/
def jsFalsyOpt : Option Json → Bool
  | none => true
  | some j => !truthy j

/-- The parsed value used by the retry validation (route.ts lines
270–287): the parsed retry content, upgraded by the brace extraction when
the direct parse came back falsy and the content is a non-empty string
(a failed parse of the extracted span keeps the earlier value). -/
def finalParsedOf (retryContent : String) : Option Json :=
  let retryParsed := tryParseJsonFromContent retryContent
  if jsFalsyOpt retryParsed && retryContent != "" then
    match extractBrace retryContent with
    | some sub =>
      match jsonParse sub with
      | some v => some v
      | none => retryParsed
    | none => retryParsed
  else retryParsed

/-- The retry half of the handler (route.ts lines 289–314): validate the
final parsed value (with coercion) and answer with the plan on success,
the fallback otherwise. -/
def retryPhase (pd : PatientData) (retryContent : String) : ApiResponse :=
  match attemptValidate (finalParsedOf retryContent) with
  | some plan => .ok plan
  | none => .ok (fallbackPlan pd)

/-- The generation pipeline of the POST handler in
`src/app/api/generate-plan/route.ts` for a well-formed `PatientData` body.
The two outbound Groq calls are modelled by their outcomes (`call1`
strict, `call2` lenient); the prompt they carry does not influence the
handler's result.  Control flow mirrors the source: a thrown call is absorbed by
the surrounding catch and falls through to the fallback; the first
attempt's content is parsed and validated (with coercion); on failure the
retry content is parsed, then brace-extracted when unparsed-and-falsy, and
validated (with coercion); any remaining failure returns the fallback.
This definition carries the tail of the first attempt: answer a validated
plan, else hand the retry content to the retry phase, else fall back. -/
def afterAttempt1 (pd : PatientData) (res1 : Option TreatmentPlan)
    (call2 : CallOutcome) : ApiResponse :=
  match res1 with
  | some plan => .ok plan
  | none =>
    match call2 with
    | .error _ => .ok (fallbackPlan pd)
    | .ok retryContent => retryPhase pd retryContent

/-- The pipeline proper: first-attempt content validated, then the retry
half, then the fallback. -/
def generationPipeline (pd : PatientData) (call1 call2 : CallOutcome) : ApiResponse :=
  match call1 with
  | .error _ => .ok (fallbackPlan pd)
  | .ok content => afterAttempt1 pd (attemptValidate (tryParseJsonFromContent content)) call2

/-- Credential gate in front of the pipeline: a falsy `GROQ_API_KEY`
(absent or empty) answers the explicit 500 before any call. -/
def POST (apiKey : Option String) (pd : PatientData) (call1 call2 : CallOutcome) : ApiResponse :=
  match apiKey with
  | none => .err "Missing GROQ_API_KEY on server" 500
  | some key =>
    if key == "" then .err "Missing GROQ_API_KEY on server" 500
    else generationPipeline pd call1 call2

/-- Concrete patient record used to instantiate hypotheses of the proved
theorems (the mock entry offered by the form, abridged). -/
def pdEx : PatientData :=
  { patientName := "John Doe",
    age := 45,
    gender := .male,
    medicalHistory := "Type II diabetes, hypertension controlled with medication.",
    dentalHistory := "Irregular dental visits.",
    symptoms := ⟨true, false, true, false, false⟩,
    periodontalFindings :=
      ⟨"Generalized 4-6 mm pockets.", "Miller Class I recession.", "Grade I mobility.",
        "Horizontal bone loss 30-40%."⟩ }

/-- Appending to a string of positive length never yields the empty
string. -/
theorem length_pos_append_ne_empty (a b : String) (h : 0 < a.length) : a ++ b ≠ "" := by
  intro e
  have h2 := congrArg String.length e
  rw [String.length_append] at h2
  have h3 : ("" : String).length = 0 := rfl
  rw [h3] at h2
  omega

/-- The fallback diagnosis text is never empty. -/
theorem fallbackDiagnosis_ne_empty (name : String) (b : Bool) : fallbackDiagnosis name b ≠ "" := by
  unfold fallbackDiagnosis
  intro e
  have h2 := congrArg String.length e
  simp only [String.length_append] at h2
  have h3 : ("" : String).length = 0 := rfl
  rw [h3] at h2
  have h4 : 0 < ("Based on the provided findings, " : String).length := by decide
  omega

/-- The two diagnosis framings produce different texts for every patient
name. -/
theorem fallbackDiagnosis_framings_ne (name : String) :
    fallbackDiagnosis name true ≠ fallbackDiagnosis name false := by
  unfold fallbackDiagnosis
  intro e
  have h2 := congrArg String.data e
  simp only [String.data_append, List.append_assoc] at h2
  have h3 := List.append_cancel_left h2
  have h4 := List.append_cancel_left h3
  have h5 := List.append_cancel_left h4
  have h6 := List.append_cancel_right h5
  have h7 : ("Aggressive" : String) = "Chronic" := String.ext h6
  exact absurd h7 (by decide)

/-- Every fallback plan passes the six-field non-empty-string schema. -/
theorem schemaOK_fallback (pd : PatientData) : schemaOK (fallbackPlan pd) = true := by
  have hd : ((fallbackPlan pd).diagnosis != "") = true := by
    rw [bne_iff_ne]
    exact fallbackDiagnosis_ne_empty _ _
  have hp2 : ((fallbackPlan pd).phaseII != "") = true := by
    show ((if hasDeepPockets pd then surgicalPhaseII else notIndicatedPhaseII) != "") = true
    cases h : hasDeepPockets pd <;> decide
  unfold schemaOK
  rw [hd, hp2]
  rfl

/-- C7: the normalizer is the identity on string inputs, and a plan whose
six fields are already flat strings passes through coercion unchanged. -/
theorem formatValue_id_on_strings :
    (∀ s : String, formatValue (.jstr s) = s) ∧
    (∀ d p p1 p2 m a : String,
      coerceToStrings (.jobj (.cons "diagnosis" (.jstr d) (.cons "prognosis" (.jstr p)
        (.cons "phaseI" (.jstr p1) (.cons "phaseII" (.jstr p2) (.cons "maintenance" (.jstr m)
          (.cons "additionalRecommendations" (.jstr a) .nil))))))) =
        some ⟨d, p, p1, p2, m, a⟩) := by
  constructor
  · intro s
    rfl
  · intro d p p1 p2 m a
    rfl

/-- C10: with the credential absent the handler answers the explicit
500 error before any model call: the response is independent of both call
outcomes, so no call is consulted and no default credential is used. -/
theorem post_missing_key_500 (pd : PatientData) (c1 c2 : CallOutcome) :
    POST none pd c1 c2 = ApiResponse.err "Missing GROQ_API_KEY on server" 500 := rfl

/-- C2: when the first outbound call throws (so no call can return
content), the handler absorbs the failure and answers success with the
deterministic fallback plan, whose fields are all non-empty. -/
theorem post_transport_failure_returns_fallback
    (k : String) (hk : k ≠ "") (pd : PatientData) (c2 : CallOutcome) :
    POST (some k) pd (Except.error ()) c2 = ApiResponse.ok (fallbackPlan pd) ∧
      schemaOK (fallbackPlan pd) = true := by
  constructor
  · have hb : (k == "") = false := by simp [hk]
    simp [POST, hb, generationPipeline]
  · exact schemaOK_fallback pd

theorem post_transport_failure_witness :
    POST (some "gsk_test") pdEx (Except.error ()) (Except.error ()) =
        ApiResponse.ok (fallbackPlan pdEx) ∧
      schemaOK (fallbackPlan pdEx) = true :=
  post_transport_failure_returns_fallback "gsk_test" (by decide) pdEx (Except.error ())

/-- Concrete 20-year-old patient with no "7"/"8" in the probing-depth
text. -/
def pd20 : PatientData :=
  { patientName := "Jane Roe",
    age := 20,
    gender := .female,
    medicalHistory := "None.",
    dentalHistory := "Regular visits.",
    symptoms := ⟨false, false, false, false, false⟩,
    periodontalFindings :=
      ⟨"Generalized 4-5 mm pockets.", "None observed.", "None.", "Mild horizontal loss."⟩ }

/-- Concrete 50-year-old patient whose probing-depth text contains
"7mm". -/
def pd50 : PatientData :=
  { patientName := "John Smith",
    age := 50,
    gender := .male,
    medicalHistory := "Hypertension.",
    dentalHistory := "Irregular visits.",
    symptoms := ⟨true, false, false, false, false⟩,
    periodontalFindings :=
      ⟨"Localized 7mm pockets on molars.", "Miller Class I.", "Grade I.", "Moderate."⟩ }

/-- C4: the fallback plan is a deterministic function of the patient data:
the diagnosis uses the Aggressive framing exactly when age < 35, and
phaseII is the surgical template exactly when the probing-depth text
contains "7" or "8" (the not-indicated template otherwise); in particular
for the concrete age-20 and age-50 patients above. -/
theorem fallback_rules (pd : PatientData) :
    ((fallbackPlan pd).diagnosis = fallbackDiagnosis pd.patientName true ↔ pd.age < 35) ∧
    ((fallbackPlan pd).phaseII = surgicalPhaseII ↔
      (strIncludes pd.periodontalFindings.probingDepths "7" ||
        strIncludes pd.periodontalFindings.probingDepths "8") = true) ∧
    ((fallbackPlan pd).phaseII = notIndicatedPhaseII ↔
      (strIncludes pd.periodontalFindings.probingDepths "7" ||
        strIncludes pd.periodontalFindings.probingDepths "8") = false) ∧
    ((fallbackPlan pd20).diagnosis = fallbackDiagnosis "Jane Roe" true ∧
      (fallbackPlan pd20).phaseII = notIndicatedPhaseII) ∧
    ((fallbackPlan pd50).diagnosis = fallbackDiagnosis "John Smith" false ∧
      (fallbackPlan pd50).phaseII = surgicalPhaseII) := by
  have hne : surgicalPhaseII ≠ notIndicatedPhaseII := by decide
  refine ⟨?_, ?_, ?_, ⟨by decide, by decide⟩, ⟨by decide, by decide⟩⟩
  · show fallbackDiagnosis pd.patientName (decide (pd.age < 35)) =
      fallbackDiagnosis pd.patientName true ↔ pd.age < 35
    by_cases hage : pd.age < 35
    · simp [hage]
    · simp only [hage, iff_false, decide_eq_false hage]
      intro h
      exact fallbackDiagnosis_framings_ne pd.patientName h.symm
  · show (if hasDeepPockets pd then surgicalPhaseII else notIndicatedPhaseII) =
      surgicalPhaseII ↔ _
    cases h : hasDeepPockets pd
    · rw [if_neg (by simp [h])]
      unfold hasDeepPockets at h
      simp [h, hne.symm]
    · rw [if_pos (by simp [h])]
      unfold hasDeepPockets at h
      simp [h]
  · show (if hasDeepPockets pd then surgicalPhaseII else notIndicatedPhaseII) =
      notIndicatedPhaseII ↔ _
    cases h : hasDeepPockets pd
    · rw [if_neg (by simp [h])]
      unfold hasDeepPockets at h
      simp [h]
    · rw [if_pos (by simp [h])]
      unfold hasDeepPockets at h
      simp [h, hne]

/-- A field accepted by the zod string check is non-empty. -/
theorem reqStringField_ne_empty {o : JsonObj} {k s : String}
    (h : reqStringField o k = some s) : s ≠ "" := by
  unfold reqStringField at h
  split at h
  next s0 heq =>
    split at h
    · cases h
    next hb =>
      cases h
      intro e
      subst e
      simp at hb
  next => cases h

/-- A plan accepted by `safeParsePlan` satisfies the schema predicate. -/
theorem safeParsePlan_schemaOK {j : Json} {plan : TreatmentPlan}
    (h : safeParsePlan j = some plan) : schemaOK plan = true := by
  cases j with
  | jobj o =>
    have h2 : (match reqStringField o "diagnosis", reqStringField o "prognosis",
        reqStringField o "phaseI", reqStringField o "phaseII",
        reqStringField o "maintenance", reqStringField o "additionalRecommendations" with
      | some d, some p, some p1, some p2, some m, some a =>
        some (⟨d, p, p1, p2, m, a⟩ : TreatmentPlan)
      | _, _, _, _, _, _ => none) = some plan := h
    split at h2
    next d p p1 p2 m a hd hp hp1 hp2 hm ha =>
      cases h2
      unfold schemaOK
      simp only [Bool.and_eq_true, bne_iff_ne, ne_eq]
      exact ⟨⟨⟨⟨⟨reqStringField_ne_empty hd, reqStringField_ne_empty hp⟩,
        reqStringField_ne_empty hp1⟩, reqStringField_ne_empty hp2⟩,
        reqStringField_ne_empty hm⟩, reqStringField_ne_empty ha⟩
    next => cases h2
  | jstr s => cases h
  | jnum n => cases h
  | jbool b => cases h
  | jnull => cases h
  | jarr l => cases h

/-- A plan produced by direct validation or coercion satisfies the schema:
direct successes by `safeParsePlan_schemaOK`, coerced ones by the explicit
`schemaOK` gate. -/
theorem validateOrCoerce_schemaOK {j : Json} {plan : TreatmentPlan}
    (h : validateOrCoerce j = some plan) : schemaOK plan = true := by
  cases hS : safeParsePlan j with
  | some p0 =>
    unfold validateOrCoerce at h
    rw [hS] at h
    have h2 : some p0 = some plan := h
    cases h2
    exact safeParsePlan_schemaOK hS
  | none =>
    unfold validateOrCoerce at h
    rw [hS] at h
    cases hC : coerceToStrings j with
    | some c =>
      rw [hC] at h
      have h2 : (if schemaOK c = true then some c else none) = some plan := h
      by_cases hOK : schemaOK c = true
      · rw [if_pos hOK] at h2
        cases h2
        exact hOK
      · rw [if_neg hOK] at h2
        cases h2
    | none =>
      rw [hC] at h
      cases h

/-- Any plan produced by one validation round satisfies the schema. -/
theorem attemptValidate_schemaOK {p : Option Json} {plan : TreatmentPlan}
    (h : attemptValidate p = some plan) : schemaOK plan = true := by
  cases p with
  | none => cases h
  | some j =>
    have h2 : (if truthy j = true then validateOrCoerce j else none) = some plan := h
    by_cases ht : truthy j = true
    · rw [if_pos ht] at h2
      exact validateOrCoerce_schemaOK h2
    · rw [if_neg ht] at h2
      cases h2

/-- Every success answer of the retry phase satisfies the schema. -/
theorem retryPhase_schemaOK {pd : PatientData} {rc : String} {plan : TreatmentPlan}
    (h : retryPhase pd rc = ApiResponse.ok plan) : schemaOK plan = true := by
  cases hB : attemptValidate (finalParsedOf rc) with
  | some p0 =>
    unfold retryPhase at h
    rw [hB] at h
    have h2 : ApiResponse.ok p0 = ApiResponse.ok plan := h
    cases h2
    exact attemptValidate_schemaOK hB
  | none =>
    unfold retryPhase at h
    rw [hB] at h
    have h2 : ApiResponse.ok (fallbackPlan pd) = ApiResponse.ok plan := h
    cases h2
    exact schemaOK_fallback pd

/-- Every success answer of the first attempt's tail satisfies the
schema, given that the first validated result does. -/
theorem afterAttempt1_schemaOK {pd : PatientData} {res1 : Option TreatmentPlan}
    {c2 : CallOutcome} {plan : TreatmentPlan}
    (h : afterAttempt1 pd res1 c2 = ApiResponse.ok plan)
    (hres : ∀ p, res1 = some p → schemaOK p = true) : schemaOK plan = true := by
  cases res1 with
  | some p0 =>
    have h2 : ApiResponse.ok p0 = ApiResponse.ok plan := h
    cases h2
    exact hres _ rfl
  | none =>
    cases c2 with
    | error e =>
      have h2 : ApiResponse.ok (fallbackPlan pd) = ApiResponse.ok plan := h
      cases h2
      exact schemaOK_fallback pd
    | ok rc =>
      have h2 : retryPhase pd rc = ApiResponse.ok plan := h
      exact retryPhase_schemaOK h2

/-- Every success answer of the generation pipeline satisfies the
schema. -/
theorem generationPipeline_schemaOK {pd : PatientData} {c1 c2 : CallOutcome}
    {plan : TreatmentPlan} (h : generationPipeline pd c1 c2 = ApiResponse.ok plan) :
    schemaOK plan = true := by
  cases c1 with
  | error e =>
    have h2 : ApiResponse.ok (fallbackPlan pd) = ApiResponse.ok plan := h
    cases h2
    exact schemaOK_fallback pd
  | ok content =>
    have h2 : afterAttempt1 pd (attemptValidate (tryParseJsonFromContent content)) c2 =
        ApiResponse.ok plan := h
    exact afterAttempt1_schemaOK h2 (fun p hp => attemptValidate_schemaOK hp)

/-- C1: every plan returned with a success status — from direct
validation, coercion on either attempt, or the static fallback — passes
the six-field non-empty-string schema; no success path returns a
partially-filled plan. -/
theorem post_success_schema (apiKey : Option String) (pd : PatientData)
    (c1 c2 : CallOutcome) (plan : TreatmentPlan)
    (h : POST apiKey pd c1 c2 = ApiResponse.ok plan) : schemaOK plan = true := by
  cases apiKey with
  | none => cases h
  | some k =>
    have h2 : (if k == "" then ApiResponse.err "Missing GROQ_API_KEY on server" 500
        else generationPipeline pd c1 c2) = ApiResponse.ok plan := h
    by_cases hk : (k == "") = true
    · rw [if_pos hk] at h2
      cases h2
    · rw [if_neg hk] at h2
      exact generationPipeline_schemaOK h2

theorem post_success_schema_witness : schemaOK (fallbackPlan pdEx) = true :=
  post_success_schema (some "gsk_test") pdEx (Except.error ()) (Except.error ())
    (fallbackPlan pdEx) (by rfl)

/-- Coercion of an object always succeeds and sends each field to the
normalization of its lookup. -/
theorem coerce_get (o : JsonObj) (f : PlanField) :
    ∃ plan, coerceToStrings (.jobj o) = some plan ∧
      plan.get f = formatValueOpt (o.lookup f.key) := by
  refine ⟨_, rfl, ?_⟩
  cases f <;> rfl

/-- Concrete object missing the `prognosis` key. -/
def objMissingProg : JsonObj := .cons "diagnosis" (.jstr "Stage II periodontitis") .nil

/-- Model output (directly parseable JSON) missing the `prognosis` key. -/
def contentMissingProg : String :=
  "\x7b\"diagnosis\":\"Stage II periodontitis\",\"phaseI\":\"SRP\",\"phaseII\":\"Flap surgery\",\"maintenance\":\"3-month recall\",\"additionalRecommendations\":\"Quit smoking\"\x7d"

/-- The plan the endpoint returns for `contentMissingProg`: the missing
field has become the literal text "undefined". -/
def planUndef : TreatmentPlan :=
  ⟨"Stage II periodontitis", "undefined", "SRP", "Flap surgery", "3-month recall",
    "Quit smoking"⟩

/-- C6: when a parsed non-null object lacks a required field, coercion
maps that field to the literal string "undefined" (the text of
`String(undefined)`), which is non-empty; consequently the endpoint can
answer success with a plan whose field text is exactly "undefined", as the
concrete run shows. -/
theorem coerce_missing_field_undefined :
    (∀ (o : JsonObj) (f : PlanField), o.lookup f.key = none →
      ∃ plan, coerceToStrings (.jobj o) = some plan ∧ plan.get f = "undefined" ∧
        plan.get f ≠ "") ∧
    (POST (some "gsk_test") pdEx (Except.ok contentMissingProg) (Except.error ()) =
        ApiResponse.ok planUndef ∧
      planUndef.prognosis = "undefined" ∧ schemaOK planUndef = true) := by
  constructor
  · intro o f hmiss
    obtain ⟨plan, hc, hg⟩ := coerce_get o f
    rw [hmiss] at hg
    refine ⟨plan, hc, hg, ?_⟩
    rw [hg]
    decide
  · exact ⟨by rfl, rfl, by decide⟩

theorem coerce_missing_field_undefined_witness :
    ∃ plan, coerceToStrings (.jobj objMissingProg) = some plan ∧
      plan.get .prognosis = "undefined" ∧ plan.get .prognosis ≠ "" :=
  coerce_missing_field_undefined.1 objMissingProg .prognosis (by rfl)

mutual
/-- Structural size of a JSON value (used to bound the recursion depth of
the normalizer). -/
def sizeJ : Json → Nat
  | .jstr _ => 1
  | .jnum _ => 1
  | .jbool _ => 1
  | .jnull => 1
  | .jarr items => 1 + sizeJL items
  | .jobj entries => 1 + sizeJO entries

/-- Structural size of a JSON list. -/
def sizeJL : JsonList → Nat
  | .nil => 1
  | .cons v rest => 1 + sizeJ v + sizeJL rest

/-- Structural size of a JSON object. -/
def sizeJO : JsonObj → Nat
  | .nil => 1
  | .cons _ v rest => 1 + sizeJ v + sizeJO rest
end

mutual
/-- The normalizer with its recursion made explicit: every recursive call
consumes one unit of fuel, and exhausted fuel reports failure.  Running
this on enough fuel is how termination of the source's recursion is
stated. -/
def formatValueFuel : Nat → Json → Option String
  | 0, _ => none
  | _ + 1, .jstr s => some s
  | _ + 1, .jnum n => some (toString n)
  | _ + 1, .jbool b => some (toString b)
  | _ + 1, .jnull => some "null"
  | f + 1, .jarr items => (fmtItemsFuel f 1 items).map (joinWith "\n")
  | f + 1, .jobj entries => (fmtEntriesFuel f entries).map (joinWith "\n\n")

/-- Fuelled rendering of array items. -/
def fmtItemsFuel : Nat → Nat → JsonList → Option (List String)
  | 0, _, _ => none
  | _ + 1, _, .nil => some []
  | f + 1, i, .cons v rest =>
    match formatValueFuel f v with
    | none => none
    | some s =>
      match fmtItemsFuel f (i + 1) rest with
      | none => none
      | some tl => some ((toString i ++ ". " ++ s) :: tl)

/-- Fuelled rendering of object entries. -/
def fmtEntriesFuel : Nat → JsonObj → Option (List String)
  | 0, _ => none
  | _ + 1, .nil => some []
  | f + 1, .cons k v rest =>
    match formatValueFuel f v with
    | none => none
    | some fv =>
      match fmtEntriesFuel f rest with
      | none => none
      | some tl =>
        some ((if strIncludes fv "\n" then
            k ++ ":\n" ++ joinWith "\n" ((strSplit fv '\n').map (fun line => "• " ++ line))
          else "• " ++ k ++ ": " ++ fv) :: tl)
end

/-- Sizes are positive. -/
theorem sizeJ_pos (v : Json) : 1 ≤ sizeJ v := by
  cases v <;> simp [sizeJ]

/-- List sizes are positive. -/
theorem sizeJL_pos (l : JsonList) : 1 ≤ sizeJL l := by
  cases l with
  | nil => simp [sizeJL]
  | cons v rest =>
    simp only [sizeJL]
    omega

/-- Object sizes are positive. -/
theorem sizeJO_pos (o : JsonObj) : 1 ≤ sizeJO o := by
  cases o with
  | nil => simp [sizeJO]
  | cons k v rest =>
    simp only [sizeJO]
    omega

/-- Fuel bounded below by the input size suffices for the normalizer, its
item renderer and its entry renderer simultaneously: the recursion of
`formatValue` terminates within input-size many nested calls. -/
theorem formatValueFuel_complete (f : Nat) :
    (∀ v : Json, sizeJ v ≤ f → formatValueFuel f v = some (formatValue v)) ∧
    (∀ (i : Nat) (l : JsonList), sizeJL l ≤ f → fmtItemsFuel f i l = some (fmtItems i l)) ∧
    (∀ o : JsonObj, sizeJO o ≤ f → fmtEntriesFuel f o = some (fmtEntries o)) := by
  induction f with
  | zero =>
    refine ⟨fun v hv => ?_, fun i l hl => ?_, fun o ho => ?_⟩
    · exact absurd hv (by have := sizeJ_pos v; omega)
    · exact absurd hl (by have := sizeJL_pos l; omega)
    · exact absurd ho (by have := sizeJO_pos o; omega)
  | succ f ih =>
    obtain ⟨ihv, ihl, iho⟩ := ih
    refine ⟨fun v hv => ?_, fun i l hl => ?_, fun o ho => ?_⟩
    · cases v with
      | jstr s => rfl
      | jnum n => rfl
      | jbool b => rfl
      | jnull => rfl
      | jarr items =>
        have h1 : sizeJL items ≤ f := by
          simp only [sizeJ] at hv
          omega
        simp [formatValueFuel, formatValue, ihl 1 items h1]
      | jobj entries =>
        have h1 : sizeJO entries ≤ f := by
          simp only [sizeJ] at hv
          omega
        simp [formatValueFuel, formatValue, iho entries h1]
    · cases l with
      | nil => rfl
      | cons v rest =>
        have hv : sizeJ v ≤ f := by
          simp only [sizeJL] at hl
          have := sizeJL_pos rest
          omega
        have hr : sizeJL rest ≤ f := by
          simp only [sizeJL] at hl
          have := sizeJ_pos v
          omega
        simp [fmtItemsFuel, fmtItems, ihv v hv, ihl (i + 1) rest hr]
    · cases o with
      | nil => rfl
      | cons k v rest =>
        have hv : sizeJ v ≤ f := by
          simp only [sizeJO] at ho
          have := sizeJO_pos rest
          omega
        have hr : sizeJO rest ≤ f := by
          simp only [sizeJO] at ho
          have := sizeJ_pos v
          omega
        simp [fmtEntriesFuel, fmtEntries, ihv v hv, iho rest hr]

/-- C9: the normalizer is total on every finite JSON value of arbitrary
depth — with fuel bounded below by the input size, the explicitly fuelled
recursion always completes and yields the (always-defined) string of
`formatValue` — and it processes arrays and object entries in order: both
renderers are append-homomorphic, so index order and key insertion order
are preserved. -/
theorem formatValue_total_fuel :
    (∀ (v : Json) (f : Nat), sizeJ v ≤ f → formatValueFuel f v = some (formatValue v)) ∧
    (∀ (i : Nat) (l1 l2 : List Json),
      fmtItems i (JsonList.ofList (l1 ++ l2)) =
        fmtItems i (JsonList.ofList l1) ++ fmtItems (i + l1.length) (JsonList.ofList l2)) ∧
    (∀ e1 e2 : List (String × Json),
      fmtEntries (JsonObj.ofList (e1 ++ e2)) =
        fmtEntries (JsonObj.ofList e1) ++ fmtEntries (JsonObj.ofList e2)) := by
  refine ⟨fun v f hf => (formatValueFuel_complete f).1 v hf, ?_, ?_⟩
  · intro i l1 l2
    induction l1 generalizing i with
    | nil => simp [JsonList.ofList, fmtItems]
    | cons v rest ih =>
      simp only [List.cons_append, JsonList.ofList, fmtItems, List.length_cons,
        List.append_eq]
      rw [ih (i + 1)]
      have harith : i + (rest.length + 1) = i + 1 + rest.length := by omega
      rw [harith]
  · intro e1 e2
    induction e1 with
    | nil => simp [JsonObj.ofList, fmtEntries]
    | cons kv rest ih =>
      obtain ⟨k, v⟩ := kv
      simp only [List.cons_append, JsonObj.ofList, fmtEntries, List.append_eq]
      rw [ih]

theorem formatValue_total_fuel_witness :
    formatValueFuel 10 (.jarr (.cons (.jstr "a") (.cons (.jstr "b") .nil))) =
      some (formatValue (.jarr (.cons (.jstr "a") (.cons (.jstr "b") .nil)))) :=
  formatValue_total_fuel.1 (.jarr (.cons (.jstr "a") (.cons (.jstr "b") .nil))) 10 (by decide)

/-- Text containing neither curly brace. -/
def braceFree (s : String) : Bool := s.data.all (fun c => c != lbrace && c != rbrace)

/-- Dropping over a fully-satisfying prefix continues in the suffix. -/
theorem dropWhile_append_of_all {p : Char → Bool} {l1 l2 : List Char}
    (h : l1.all p = true) : (l1 ++ l2).dropWhile p = l2.dropWhile p := by
  induction l1 with
  | nil => rfl
  | cons c cs ih =>
    simp only [List.all_cons, Bool.and_eq_true] at h
    simp only [List.cons_append, List.dropWhile_cons, h.1, if_true]
    exact ih h.2

/-- Dropping stops at a failing head. -/
theorem dropWhile_cons_false {p : Char → Bool} {c : Char} {l : List Char}
    (h : p c = false) : (c :: l).dropWhile p = c :: l := by
  simp [List.dropWhile_cons, h]

/-- Brace-free text has no left brace. -/
theorem braceFree_no_left {s : String} (h : braceFree s = true) :
    s.data.all (fun c => c != lbrace) = true := by
  simp only [braceFree, List.all_eq_true, Bool.and_eq_true] at h
  simp only [List.all_eq_true]
  exact fun c hc => (h c hc).1

/-- Brace-free text has no right brace, in reverse order either. -/
theorem braceFree_no_right_reverse {s : String} (h : braceFree s = true) :
    s.data.reverse.all (fun c => c != rbrace) = true := by
  simp only [braceFree, List.all_eq_true, Bool.and_eq_true] at h
  simp only [List.all_eq_true, List.mem_reverse]
  exact fun c hc => (h c hc).2

/-- When the only braces of a text are the delimiters of one embedded
span, the greedy first-brace-to-last-brace extraction recovers exactly
that span. -/
theorem extractBrace_embedded (pre inner post : String)
    (hpre : braceFree pre = true) (hpost : braceFree post = true)
    (hhead : inner.data.head? = some lbrace)
    (hlast : inner.data.reverse.head? = some rbrace) :
    extractBrace (pre ++ inner ++ post) = some inner := by
  obtain ⟨t, ht⟩ : ∃ t, inner.data = lbrace :: t := by
    cases hd : inner.data with
    | nil =>
      rw [hd] at hhead
      cases hhead
    | cons c cs =>
      rw [hd] at hhead
      exact ⟨cs, by rw [Option.some.inj hhead]⟩
  obtain ⟨r, hr⟩ : ∃ r, inner.data.reverse = rbrace :: r := by
    cases hd : inner.data.reverse with
    | nil =>
      rw [hd] at hlast
      cases hlast
    | cons c cs =>
      rw [hd] at hlast
      exact ⟨cs, by rw [Option.some.inj hlast]⟩
  have hdata : (pre ++ inner ++ post).data = pre.data ++ (inner.data ++ post.data) := by
    simp [String.data_append, List.append_assoc]
  have h1 : (pre.data ++ (inner.data ++ post.data)).dropWhile (fun c => c != lbrace) =
      inner.data ++ post.data := by
    rw [dropWhile_append_of_all (braceFree_no_left hpre), ht]
    simp only [List.cons_append]
    exact dropWhile_cons_false (by simp)
  have h2 : (inner.data ++ post.data).reverse = post.data.reverse ++ (rbrace :: r) := by
    rw [List.reverse_append, hr]
  have h3 : (post.data.reverse ++ (rbrace :: r)).dropWhile (fun c => c != rbrace) =
      rbrace :: r := by
    rw [dropWhile_append_of_all (braceFree_no_right_reverse hpost)]
    exact dropWhile_cons_false (by simp)
  have h4 : (rbrace :: r).reverse = inner.data := by
    rw [← hr, List.reverse_reverse]
  simp only [extractBrace, hdata]
  rw [h1, h2, h3, h4, ht]
  simp only [List.isEmpty_cons, Bool.false_eq_true, if_false]
  rw [← ht]

/-- A value accepted by the schema is an object, hence truthy. -/
theorem truthy_of_safeParsePlan {j : Json} {plan : TreatmentPlan}
    (h : safeParsePlan j = some plan) : truthy j = true := by
  cases j with
  | jobj o => rfl
  | jstr s => cases h
  | jnum n => cases h
  | jbool b => cases h
  | jnull => cases h
  | jarr l => cases h

/-- C8: on the lenient-retry path with directly-unparseable content, the
extraction takes the greedy first-brace-to-last-brace substring; when the
content is garbage around one embedded balanced JSON object that matches
the schema, that substring is exactly the embedded object and the handler
returns its fields. -/
theorem retry_extracts_embedded_json
    (k : String) (hk : k ≠ "") (pd : PatientData) (firstContent : String)
    (h1 : attemptValidate (tryParseJsonFromContent firstContent) = none)
    (pre inner post : String)
    (hpre : braceFree pre = true) (hpost : braceFree post = true)
    (hhead : inner.data.head? = some lbrace)
    (hlast : inner.data.reverse.head? = some rbrace)
    (hnoparse : tryParseJsonFromContent (pre ++ inner ++ post) = none)
    (j : Json) (plan : TreatmentPlan)
    (hparse : jsonParse inner = some j)
    (hval : safeParsePlan j = some plan) :
    extractBrace (pre ++ inner ++ post) = some inner ∧
      POST (some k) pd (Except.ok firstContent) (Except.ok (pre ++ inner ++ post)) =
        ApiResponse.ok plan := by
  have hextract := extractBrace_embedded pre inner post hpre hpost hhead hlast
  refine ⟨hextract, ?_⟩
  have hne : (pre ++ inner ++ post : String) ≠ "" := by
    intro e
    have h2 := congrArg String.length e
    rw [String.length_append, String.length_append] at h2
    have h3 : 1 ≤ inner.length := by
      have h4 : inner.length = inner.data.length := rfl
      rw [h4]
      cases hd : inner.data with
      | nil =>
        rw [hd] at hhead
        cases hhead
      | cons c cs => simp
    have h5 : ("" : String).length = 0 := rfl
    rw [h5] at h2
    omega
  have hbne : ((pre ++ inner ++ post : String) != "") = true := bne_iff_ne.mpr hne
  have hfp : finalParsedOf (pre ++ inner ++ post) = some j := by
    simp only [finalParsedOf, hnoparse, jsFalsyOpt, hbne, Bool.true_and, if_true,
      hextract, hparse]
  have hT : truthy j = true := truthy_of_safeParsePlan hval
  have hav : attemptValidate (finalParsedOf (pre ++ inner ++ post)) = some plan := by
    rw [hfp]
    have h2 : attemptValidate (some j) = if truthy j = true then validateOrCoerce j
        else none := rfl
    rw [h2, if_pos hT]
    unfold validateOrCoerce
    rw [hval]
  have hretry : retryPhase pd (pre ++ inner ++ post) = ApiResponse.ok plan := by
    unfold retryPhase
    rw [hav]
  have hpost2 : POST (some k) pd (Except.ok firstContent)
      (Except.ok (pre ++ inner ++ post)) =
      generationPipeline pd (Except.ok firstContent)
        (Except.ok (pre ++ inner ++ post)) := by
    simp [POST, hk]
  rw [hpost2]
  have hgp : generationPipeline pd (Except.ok firstContent)
      (Except.ok (pre ++ inner ++ post)) =
      afterAttempt1 pd (attemptValidate (tryParseJsonFromContent firstContent))
        (Except.ok (pre ++ inner ++ post)) := rfl
  rw [hgp, h1]
  have haft : afterAttempt1 pd none (Except.ok (pre ++ inner ++ post)) =
      retryPhase pd (pre ++ inner ++ post) := rfl
  rw [haft, hretry]

/-- Embedded JSON object of the concrete retry-extraction run. -/
def innerEx : String :=
  "\x7b\"diagnosis\":\"Chronic periodontitis\",\"prognosis\":\"Fair\",\"phaseI\":\"SRP\",\"phaseII\":\"Flap surgery\",\"maintenance\":\"3-month recall\",\"additionalRecommendations\":\"Smoking cessation\"\x7d"

/-- Brace-free garbage before the embedded object. -/
def preEx : String := "Sure! Here is the plan you asked for: "

/-- Brace-free garbage after the embedded object. -/
def postEx : String := " Let me know if you need anything else."

/-- First-attempt content that parses to nothing usable. -/
def garbageEx : String := "I could not produce JSON, sorry."

/-- Parsed form of `innerEx`. -/
def jEx : Json :=
  .jobj (.cons "diagnosis" (.jstr "Chronic periodontitis")
    (.cons "prognosis" (.jstr "Fair")
      (.cons "phaseI" (.jstr "SRP")
        (.cons "phaseII" (.jstr "Flap surgery")
          (.cons "maintenance" (.jstr "3-month recall")
            (.cons "additionalRecommendations" (.jstr "Smoking cessation") .nil))))))

/-- Plan carried by `jEx`. -/
def planEx : TreatmentPlan :=
  ⟨"Chronic periodontitis", "Fair", "SRP", "Flap surgery", "3-month recall",
    "Smoking cessation"⟩

theorem retry_extracts_embedded_json_witness :
    extractBrace (preEx ++ innerEx ++ postEx) = some innerEx ∧
      POST (some "gsk_test") pdEx (Except.ok garbageEx)
          (Except.ok (preEx ++ innerEx ++ postEx)) =
        ApiResponse.ok planEx :=
  retry_extracts_embedded_json "gsk_test" (by decide) pdEx garbageEx (by rfl)
    preEx innerEx postEx (by rfl) (by rfl) (by rfl) (by rfl) (by rfl)
    jEx planEx (by rfl) (by rfl)

/-- Observable operations of the document renderer, in emission order:
page-break decisions, the page furniture drawn by a break (footer of the
outgoing page, fresh page, header of the incoming page), a section's
banner draw calls, the line-count-based content height estimate, and the
content draw call. -/
inductive REv where
  | breakCheck (needed : Int) (broke : Bool)
  | footerDraw
  | newPage
  | headerDraw
  | bannerRect
  | bannerText (title : String)
  | contentEstimate (estimate : Int)
  | contentText (lineCount : Nat)
deriving DecidableEq

/-- The `checkPageBreak` helper of `src/utils/pdfExport.ts` (lines 59–65):
when the cursor plus the needed space exceeds the printable area the
footer is drawn, a page is added and the header redraws, resetting the
cursor to 70; the pair returned is the new cursor and this call's events. -/
def checkPageBreakE (pageHeight : Int) (y needed : Int) : Int × List REv :=
  if y + needed > pageHeight - 50 then
    (70, [.breakCheck needed true, .footerDraw, .newPage, .headerDraw])
  else (y, [.breakCheck needed false])

/-- The `addSection` helper of `src/utils/pdfExport.ts` (lines 67–96),
parameterized over the library text-wrapping function `split` (jsPDF's
`splitTextToSize`) and the page height: a fixed-size 60-unit break check,
the colored banner rect and title text, a cursor advance of 25, the
processed content's wrap and line-count height estimate, the break check
with that estimate, and the content draw; returns the advanced cursor and
the events of this call in source order. -/
def addSectionE (pageHeight : Int) (split : String → List String) (y : Int)
    (title content : String) : Int × List REv :=
  let r1 := checkPageBreakE pageHeight y 60
  let y2 := r1.1 + 25
  let processed := replaceAllStr (replaceAllStr content "•" "  •") "\n\n" "\n \n"
  let lines := split processed
  let contentHeight : Int := (lines.length : Int) * 6
  let r2 := checkPageBreakE pageHeight y2 contentHeight
  (r2.1 + contentHeight + 15,
    r1.2 ++ [.bannerRect, .bannerText title] ++ [.contentEstimate contentHeight] ++
      r2.2 ++ [.contentText lines.length])

/-- Any draw call (section banner or content, or break furniture). -/
def isDrawEv : REv → Bool
  | .footerDraw => true
  | .headerDraw => true
  | .bannerRect => true
  | .bannerText _ => true
  | .contentText _ => true
  | _ => false

/-- The content-estimate marker. -/
def isEstimateEv : REv → Bool
  | .contentEstimate _ => true
  | _ => false

/-- The claim's ordering predicate: no draw call occurs before the first
content height estimate of the call. -/
def estimateBeforeDraws : List REv → Bool
  | [] => true
  | e :: rest =>
    if isEstimateEv e then true
    else if isDrawEv e then false
    else estimateBeforeDraws rest

mutual
/-- Scans for a section banner rect, then looks for a pagination before
that section's content is placed. -/
def midBlockScan : List REv → Bool
  | [] => false
  | .bannerRect :: rest => midBlockAfterBanner rest
  | _ :: rest => midBlockScan rest

/-- After a banner rect: a new page before the content text is a
mid-block pagination. -/
def midBlockAfterBanner : List REv → Bool
  | [] => false
  | .newPage :: _ => true
  | .contentText _ :: rest => midBlockScan rest
  | _ :: rest => midBlockAfterBanner rest
end

/-- Line splitter standing in for jsPDF `splitTextToSize` on content
narrower than the wrap width: one line per newline-separated segment. -/
def splitNlModel (s : String) : List String := strSplit s '\n'

/-- Twenty-five short content lines: estimated height 150. -/
def longContentEx : String := joinWith "\n" (List.replicate 25 "SRP step")

/-- C5 counterexample: at page height 297 with the cursor at 100, the
section's banner rect and title are drawn before the line-count estimate
is computed (`estimateBeforeDraws` is false), and the section paginates
after its banner and before its content text — the claimed
estimate-before-any-draw ordering fails on the code. -/
theorem addSection_estimate_after_banner_cex :
    estimateBeforeDraws (addSectionE 297 splitNlModel 100 "DIAGNOSIS" longContentEx).2 =
        false ∧
      midBlockScan
          (addSectionE 297 splitNlModel 100 "DIAGNOSIS" longContentEx).2 = true := by
  constructor
  · rfl
  · rfl

/-- The content-draw marker. -/
def isContentTextEv : REv → Bool
  | .contentText _ => true
  | _ => false

/-- Amended ordering predicate: the first content height estimate occurs
before the first content draw call. -/
def estimateBeforeContentDraw : List REv → Bool
  | [] => true
  | e :: rest =>
    if isEstimateEv e then true
    else if isContentTextEv e then false
    else estimateBeforeContentDraw rest

/-- The first decision after the estimate must be a break check with the
estimated height, reached before any content draw. -/
def checksBeforeContent (est : Int) : List REv → Bool
  | [] => false
  | .breakCheck n _ :: _ => n == est
  | .contentText _ :: _ => false
  | _ :: rest => checksBeforeContent est rest

/-- After the first estimate, the next break decision carries exactly the
estimated height and precedes the content draw. -/
def breakCheckAfterEstimate : List REv → Bool
  | [] => true
  | .contentEstimate est :: rest => checksBeforeContent est rest
  | _ :: rest => breakCheckAfterEstimate rest

/-- C5 amended: in every `addSection` call — for any page height, wrap
function, cursor, title and content — the line-count height estimate is
computed after the banner but strictly before the section's content draw
call, and the page-break decision with exactly that estimated height
stands between the estimate and the content draw, so the content block is
never placed without a preceding break decision (the banner, however, is
drawn before the estimate, as the counterexample records). -/
theorem addSection_estimate_before_content (pageHeight : Int)
    (split : String → List String) (y : Int) (title content : String) :
    estimateBeforeContentDraw (addSectionE pageHeight split y title content).2 = true ∧
      breakCheckAfterEstimate (addSectionE pageHeight split y title content).2 = true := by
  refine ⟨?_, ?_⟩ <;> simp only [addSectionE, checkPageBreakE]
  all_goals split
  all_goals split
  all_goals
    simp [estimateBeforeContentDraw, breakCheckAfterEstimate,
      checksBeforeContent, isEstimateEv, isContentTextEv]
